import Mathlib

/-!
Shallow embedding of `Bot.py` (RSI perp multi-exchange alert bot) and proofs
about its failover fetcher, source registry, market resolver, indicator
evaluation and cross-detection logic.

Modelling conventions:
* Python floats for prices, RSI values and clock times are modelled as `ℚ`;
  IEEE NaN values (which the `ta` library produces for short series) are
  modelled as `none : Option ℚ`.
* Python dicts (`pinned_exchange`, `cooldown_until`, `perp_symbol_cache`,
  `last_state`) are modelled as total functions with explicit defaults,
  matching `dict.get(k, default)` usage in the source.
* Exceptions are modelled as explicit error values.  `str(e)` is carried in
  the `msg` field of `FetchErr`; the source lowercases it at each use site
  (`str(e).lower()`), which the model mirrors with `strLower`.
* Network calls (`ex.fetch_ohlcv`) and the market catalog (`ex.markets`,
  `ex.symbols`) are external inputs, modelled by a `World` record.
* `time.time()` is modelled by an explicit `now : ℚ` parameter; the two
  reads of the clock inside one `fetch_ohlcv_pinned` call are identified.
-/

/-- Decides whether the char list `needle` occurs at the head of `hay`
(Python `str.startswith`, used to build the substring test below). -/
def charsHasPre : List Char → List Char → Bool
  | [], _ => true
  | _ :: _, [] => false
  | a :: as, b :: bs => a == b && charsHasPre as bs

/-- Decides whether the char list `needle` occurs contiguously anywhere in
`hay` (Python `needle in hay` on strings). -/
def charsHasSub (needle : List Char) : List Char → Bool
  | [] => needle.isEmpty
  | b :: bs => charsHasPre needle (b :: bs) || charsHasSub needle bs

/-- Python `needle in hay` for strings. -/
def strHasSub (hay needle : String) : Bool :=
  charsHasSub needle.toList hay.toList

/-- Python `str.split(sep)` on a char list: `"a/b" -> ["a","b"]`,
`"" -> [""]`, `"a//b" -> ["a","","b"]`. -/
def splitChars (sep : Char) : List Char → List (List Char)
  | [] => [[]]
  | c :: cs =>
    let r := splitChars sep cs
    if c == sep then [] :: r
    else
      match r with
      | [] => [[c]]
      | g :: gs => (c :: g) :: gs

/-- Python `s.split(sep)` for a one-character separator. -/
def pySplit (s : String) (sep : Char) : List String :=
  (splitChars sep s.toList).map String.mk

/-- Python `str.lower()` (ASCII case folding, like `Char.toLower`). -/
def strLower (s : String) : String :=
  String.mk (s.toList.map Char.toLower)

instance {ε α : Type} [DecidableEq ε] [DecidableEq α] :
    DecidableEq (Except ε α)
  | .ok x, .ok y =>
    if h : x = y then .isTrue (congrArg Except.ok h)
    else .isFalse fun hh => h (Except.ok.inj hh)
  | .error x, .error y =>
    if h : x = y then .isTrue (congrArg Except.error h)
    else .isFalse fun hh => h (Except.error.inj hh)
  | .ok _, .error _ => .isFalse fun hh => Except.noConfusion hh
  | .error _, .ok _ => .isFalse fun hh => Except.noConfusion hh

/-- Fixed priority list of data sources (`EXCHANGES` in `Bot.py`). -/
def EXCHANGES : List String := ["bybit", "kucoin", "okx"]

/-- Cooldown duration in seconds (`COOLDOWN_SECONDS`, default 120). -/
def COOLDOWN_SECONDS : ℚ := 120

/-- RSI window (`window=14` in `get_rsi`). -/
def WINDOW : Nat := 14

/-- A candle `(t, o, h, l, c, v)` as fetched from an exchange. -/
structure Candle where
  t : ℚ
  o : ℚ
  h : ℚ
  l : ℚ
  c : ℚ
  v : ℚ
  deriving DecidableEq, Repr

/-- One entry of a ccxt market catalog, with exactly the keys `Bot.py` reads
via `m.get(...)`: a missing key is `none`. -/
structure Market where
  active : Option Bool
  base : Option String
  quote : Option String
  swap : Option Bool
  type : Option String
  linear : Option Bool
  symbol : String
  deriving DecidableEq, Repr

/-- The catalog side of a ccxt exchange object: `ex.id`, `ex.markets`
(in provider-returned order) and `ex.symbols`. -/
structure CcxtExchange where
  id : String
  markets : List Market
  symbols : List String
  deriving DecidableEq, Repr

/-- The market-resolution cache `perp_symbol_cache`,
keyed by `(exchange id, base symbol)`. -/
def PerpCache : Type := String × String → Option String

/-- Errors `find_perp_market_symbol` can raise: `ccxt.BadSymbol` from the
explicit `raise`, or `ValueError` from `base_symbol.split("/")` unpacking
into two variables when the split does not give exactly two parts. -/
inductive ResolveErr where
  | badSymbol (msg : String)
  | valueErr (msg : String)
  deriving DecidableEq, Repr

/-- The body of the candidate loop of `find_perp_market_symbol`: keep `m`
when it is active (missing `active` counts as active), its base and quote
equal the split components, and it is a swap (`m.get("swap") is True` or
`m.get("type") == "swap"`). -/
def isPerpCandidate (base quote : String) (m : Market) : Bool :=
  (m.active.getD true) && (m.base == some base) && (m.quote == some quote)
    && (m.swap == some true || m.type == some "swap")

/-- `find_perp_market_symbol(ex, base_symbol)` from `Bot.py`.  Returns the
result (or error), the updated cache, and the number of `ex.load_markets()`
calls performed (0 on a cache hit, 1 otherwise). -/
def find_perp_market_symbol (cache : PerpCache) (ex : CcxtExchange)
    (base_symbol : String) : Except ResolveErr String × PerpCache × Nat :=
  match cache (ex.id, base_symbol) with
  | some s => (.ok s, cache, 0)
  | none =>
    -- ex.load_markets() happens here (counted as 1), before the split
    match pySplit base_symbol '/' with
    | [base, quote] =>
      let candidates := ex.markets.filter (isPerpCandidate base quote)
      match candidates with
      | [] =>
        if base_symbol ∈ ex.symbols then
          (.ok base_symbol,
           Function.update cache (ex.id, base_symbol) (some base_symbol), 1)
        else
          (.error (.badSymbol ("Perp " ++ base_symbol ++ " não encontrado em " ++ ex.id)),
           cache, 1)
      | c :: cs =>
        let lin := (c :: cs).filter fun m => m.linear == some true
        let chosen := (match lin with | l :: _ => l | [] => c).symbol
        (.ok chosen, Function.update cache (ex.id, base_symbol) (some chosen), 1)
    | parts =>
      if parts.length < 2 then
        (.error (.valueErr "not enough values to unpack (expected 2, got 1)"), cache, 1)
      else
        (.error (.valueErr "too many values to unpack (expected 2)"), cache, 1)

/-- The mutable registry state of `Bot.py`: the pin map `pinned_exchange`,
the cooldown map `cooldown_until` (default 0, as initialised), the resolution
cache `perp_symbol_cache`, and the failover notifications passed to `send`. -/
structure BotState where
  pinned : String × String → Option String
  cooldown : String → ℚ
  perp_symbol_cache : PerpCache
  sent : List (String × String × String × String)
  -- a sent failover message, structured as (base_symbol, timeframe, old, new)

/-- The fresh state at process start: no pins, all cooldowns 0, empty cache,
nothing sent. -/
def initState : BotState where
  pinned := fun _ => none
  cooldown := fun _ => 0
  perp_symbol_cache := fun _ => none
  sent := []

/-- `order.append(ex) for ex in rest if ex not in order`
(the second loop of `exchange_order_for`). -/
def appendMissing (order : List String) : List String → List String
  | [] => order
  | ex :: rest =>
    appendMissing (if ex ∈ order then order else order ++ [ex]) rest

/-- `exchange_order_for(symbol, tf)` from `Bot.py`: pinned source first when
the pin names a known exchange, then the rest in priority order, then the
cooldown filter `now >= cooldown_until.get(ex, 0)`. -/
def exchange_order_for (st : BotState) (symbol tf : String) (now : ℚ) :
    List String :=
  let pin := st.pinned (symbol, tf)
  let order : List String :=
    match pin with
    | some p => if p ∈ EXCHANGES then [p] else []
    | none => []
  let order := appendMissing order EXCHANGES
  order.filter fun ex => decide (now ≥ st.cooldown ex)

/-- An exception observed during one fetch attempt.  `isBadSymbol` models
`isinstance(e, ccxt.BadSymbol)`; `isNetworkKind` models membership in the
tuple of ccxt exception types tested by `is_recoverable`
(`NetworkError`, `ExchangeNotAvailable`, `DDoSProtection`,
`RateLimitExceeded`, `RequestTimeout`; `BadSymbol` is not among them);
`msg` is `str(e)`. -/
structure FetchErr where
  isBadSymbol : Bool
  isNetworkKind : Bool
  msg : String
  deriving DecidableEq, Repr

/-- `is_recoverable(e)` from `Bot.py`. -/
def is_recoverable (e : FetchErr) : Bool :=
  e.isNetworkKind ||
    (let msg := strLower e.msg
     strHasSub msg "restricted" || strHasSub msg "forbidden" || strHasSub msg "403")

/-- How a `find_perp_market_symbol` exception looks to the `except` clause of
`fetch_ohlcv_pinned`: `ccxt.BadSymbol` is a `BadSymbol`; the unpacking
`ValueError` is neither a `BadSymbol` nor one of the network types. -/
def ResolveErr.toFetchErr : ResolveErr → FetchErr
  | .badSymbol m => ⟨true, false, m⟩
  | .valueErr m => ⟨false, false, m⟩

/-- The external world: the exchange objects (`exchanges[name]`, whose ccxt
`id` equals the constructor name) and the behaviour of
`ex.fetch_ohlcv(market_symbol, timeframe, limit=limit)` for each exchange
name. -/
structure World where
  exchanges : String → CcxtExchange
  fetch_ohlcv : String → String → String → Nat → Except FetchErr (List Candle)

/-- The body of the `try:` block of one loop iteration of
`fetch_ohlcv_pinned`: resolve the market symbol (which may touch the cache),
then fetch candles. -/
def attempt (w : World) (st : BotState) (ex_name base_symbol tf : String)
    (limit : Nat) : BotState × Except FetchErr (String × List Candle) :=
  let ex := w.exchanges ex_name
  match find_perp_market_symbol st.perp_symbol_cache ex base_symbol with
  | (.ok market_symbol, cache2, _) =>
    let st2 := { st with perp_symbol_cache := cache2 }
    match w.fetch_ohlcv ex_name market_symbol tf limit with
    | .ok candles => (st2, .ok (market_symbol, candles))
    | .error e => (st2, .error e)
  | (.error e, cache2, _) =>
    ({ st with perp_symbol_cache := cache2 }, .error e.toFetchErr)

/-- `markCooldown`: the assignment
`cooldown_until[ex_name] = time.time() + COOLDOWN_SECONDS`
generalised over the duration. -/
def markCooldown (st : BotState) (source : String) (now duration : ℚ) :
    BotState :=
  { st with cooldown := Function.update st.cooldown source (now + duration) }

/-- The state updates of the `except` clause of `fetch_ohlcv_pinned`:
cooldown when the error is recoverable; then, unless the error is a
`BadSymbol` (whose `continue` comes first), evict the cache entry when the
lowercased message mentions "symbol" or "market". -/
def failUpdate (w : World) (now : ℚ) (base_symbol ex_name : String)
    (e : FetchErr) (st : BotState) : BotState :=
  let st2 :=
    if is_recoverable e then markCooldown st ex_name now COOLDOWN_SECONDS
    else st
  if e.isBadSymbol then st2
  else
    let msg := strLower e.msg
    if strHasSub msg "symbol" || strHasSub msg "market" then
      { st2 with perp_symbol_cache :=
          (Function.update st2.perp_symbol_cache
            ((w.exchanges ex_name).id, base_symbol) none) }
    else st2

/-- An exhausted fetch: the `RuntimeError` raised after the loop, carrying
the `tried` list and the last error. -/
structure ExhaustErr where
  tried : List String
  lastErr : Option FetchErr
  deriving DecidableEq, Repr

/-- A successful fetch: the triple `(ex_name, market_symbol, candles)`
returned by `fetch_ohlcv_pinned`. -/
structure FetchSuccess where
  ex_name : String
  market_symbol : String
  candles : List Candle
  deriving DecidableEq, Repr

/-- The candidate loop of `fetch_ohlcv_pinned`, processing the remaining
candidate list with the accumulated `tried` list and `last_err`.  Besides
the Python return value it exposes the final state and the final value of
the local `tried`. -/
def fetchGo (w : World) (base_symbol tf : String) (limit : Nat) (now : ℚ) :
    BotState → List String → List String → Option FetchErr →
    BotState × List String × Except ExhaustErr FetchSuccess
  | st, tried, [], lastErr => (st, tried, .error ⟨tried, lastErr⟩)
  | st, tried, ex_name :: rest, _lastErr =>
    let tried2 := tried ++ [ex_name]
    match attempt w st ex_name base_symbol tf limit with
    | (st1, .ok (market_symbol, candles)) =>
      let prev_pin := st1.pinned (base_symbol, tf)
      let st2 := { st1 with
        pinned := Function.update st1.pinned (base_symbol, tf) (some ex_name) }
      -- `if prev_pin and prev_pin != ex_name:` — Python string truthiness
      let st3 :=
        match prev_pin with
        | some p =>
          if p ≠ "" ∧ p ≠ ex_name then
            { st2 with sent := st2.sent ++ [(base_symbol, tf, p, ex_name)] }
          else st2
        | none => st2
      (st3, tried2, .ok ⟨ex_name, market_symbol, candles⟩)
    | (st1, .error e) =>
      fetchGo w base_symbol tf limit now
        (failUpdate w now base_symbol ex_name e st1) tried2 rest (some e)

/-- `fetch_ohlcv_pinned(base_symbol, timeframe, limit)` from `Bot.py`. -/
def fetch_ohlcv_pinned (w : World) (st : BotState) (base_symbol tf : String)
    (limit : Nat) (now : ℚ) :
    BotState × List String × Except ExhaustErr FetchSuccess :=
  fetchGo w base_symbol tf limit now st []
    (exchange_order_for st base_symbol tf now) none

/-!
RSI evaluation (`get_rsi` after a successful fetch).  The `ta` library
computes `RSIIndicator(close, window=14).rsi()` as:
`diff = close.diff(1)`; `up = diff.where(diff > 0, 0.0)` (the index-0 NaN of
`diff` compares false, so `up[0] = 0`, likewise `down[0] = 0`);
`emaup/emadn = up/down.ewm(alpha=1/window, min_periods=window,
adjust=False).mean()` — the recurrence `y0 = x0, y[i] = (1-α)·y[i-1] + α·x[i]`
with the first `window - 1` outputs masked to NaN by `min_periods`;
`rsi = where(emadn == 0, 100, 100 - 100/(1 + emaup/emadn))` (NaN propagates
through the masked prefix).  `get_rsi` then reads `rsi.iloc[-2]` and
`rsi.iloc[-1]`, which raises `IndexError` when the series has fewer than two
entries; `float(NaN)` is NaN, not an exception.
-/

/-- Positive parts of consecutive differences, given the previous close
(`diff.where(diff > 0, 0.0)` from index 1 on). -/
def upsGo (prev : ℚ) : List ℚ → List ℚ
  | [] => []
  | x :: xs => (if x - prev > 0 then x - prev else 0) :: upsGo x xs

/-- `up_direction` series: index 0 is 0 (NaN diff compares false). -/
def upsFrom : List ℚ → List ℚ
  | [] => []
  | c0 :: rest => 0 :: upsGo c0 rest

/-- Negated negative parts of consecutive differences
(`-diff.where(diff < 0, 0.0)` from index 1 on). -/
def downsGo (prev : ℚ) : List ℚ → List ℚ
  | [] => []
  | x :: xs => (if x - prev < 0 then -(x - prev) else 0) :: downsGo x xs

/-- `down_direction` series: index 0 is 0. -/
def downsFrom : List ℚ → List ℚ
  | [] => []
  | c0 :: rest => 0 :: downsGo c0 rest

/-- The `ewm(alpha, adjust=False).mean()` recurrence after the seed. -/
def ewmGo (alpha y : ℚ) : List ℚ → List ℚ
  | [] => []
  | x :: xs =>
    let y2 := (1 - alpha) * y + alpha * x
    y2 :: ewmGo alpha y2 xs

/-- `xs.ewm(alpha=alpha, adjust=False).mean()` without the `min_periods`
mask: `y0 = x0`, `y[i] = (1-alpha)*y[i-1] + alpha*x[i]`. -/
def ewmVals (alpha : ℚ) : List ℚ → List ℚ
  | [] => []
  | x :: xs => x :: ewmGo alpha x xs

/-- `where(emadn == 0, 100, 100 - 100/(1 + emaup/emadn))` pointwise. -/
def rsiPoint (u d : ℚ) : ℚ :=
  if d = 0 then 100 else 100 - 100 / (1 + u / d)

/-- The `min_periods=window` mask: output `i` is NaN (`none`) while fewer
than `window` observations have been seen, i.e. while `i + 1 < WINDOW`. -/
def maskShort (i : Nat) : List ℚ → List (Option ℚ)
  | [] => []
  | x :: xs => (if i + 1 < WINDOW then none else some x) :: maskShort (i + 1) xs

/-- The full `RSIIndicator(close, window=14).rsi()` series over the close
prices, with NaN as `none`. -/
def rsiSeries (closes : List ℚ) : List (Option ℚ) :=
  maskShort 0 (List.zipWith rsiPoint
    (ewmVals (1 / (WINDOW : ℚ)) (upsFrom closes))
    (ewmVals (1 / (WINDOW : ℚ)) (downsFrom closes)))

/-- The `IndexError` pandas raises for `iloc` positions out of bounds. -/
inductive RsiErr where
  | indexErr
  deriving DecidableEq, Repr

/-- The indicator part of `get_rsi`: build the RSI series over the close
column and return `(rsi.iloc[-2], rsi.iloc[-1])`. -/
def get_rsi_eval (candles : List Candle) : Except RsiErr (Option ℚ × Option ℚ) :=
  let r := rsiSeries (candles.map fun cd => cd.c)
  if r.length < 2 then .error .indexErr
  else .ok ((r.get? (r.length - 2)).getD none, (r.get? (r.length - 1)).getD none)

/-- A threshold-cross event sent by the main loop. -/
inductive CrossEvent where
  | crossedBelow
  | crossedAbove
  deriving DecidableEq, Repr

/-- One cross-detection step of the main loop (`run`, lines 204–220): on a
new key, record the baseline and emit nothing; otherwise emit the cross
events decided by the fresh `(prev, curr)` pair and store `curr`. -/
def crossStep (low high : ℚ) (last_state : String → Option ℚ)
    (key : String) (prev curr : ℚ) :
    (String → Option ℚ) × List CrossEvent :=
  match last_state key with
  | none => (Function.update last_state key (some curr), [])
  | some _ =>
    let evBelow : List CrossEvent :=
      if prev > low ∧ curr ≤ low then [.crossedBelow] else []
    let evAbove : List CrossEvent :=
      if prev < high ∧ curr ≥ high then [.crossedAbove] else []
    (Function.update last_state key (some curr), evBelow ++ evAbove)

/-- The series key `f"{ex_name}|{market_symbol}|{tf}"` of the main loop. -/
def seriesKey (ex_name market_symbol tf : String) : String :=
  ex_name ++ "|" ++ market_symbol ++ "|" ++ tf

/-!
Specification-side helpers used to state the claims about the failover loop.
-/

/-- Whether an `Except` value is a success. -/
def exceptIsOk {ε α : Type} : Except ε α → Bool
  | .ok _ => true
  | .error _ => false

/-- The state after one failed candidate: run the attempt and apply the
`except`-clause updates (used to describe the state threaded through a run
of failing candidates). -/
def failStep (w : World) (base_symbol tf : String) (limit : Nat) (now : ℚ)
    (st : BotState) (ex_name : String) : BotState :=
  match attempt w st ex_name base_symbol tf limit with
  | (st1, .error e) => failUpdate w now base_symbol ex_name e st1
  | (st1, .ok _) => st1

/-- The state after a run of candidates that all fail. -/
def failFold (w : World) (base_symbol tf : String) (limit : Nat) (now : ℚ)
    (st : BotState) (l : List String) : BotState :=
  l.foldl (failStep w base_symbol tf limit now) st

/-- Decides that every candidate in `l` fails, each attempted in the state
produced by the failures before it. -/
def failsAlongB (w : World) (base_symbol tf : String) (limit : Nat) (now : ℚ) :
    BotState → List String → Bool
  | _, [] => true
  | st, ex :: rest =>
    !exceptIsOk (attempt w st ex base_symbol tf limit).2 &&
      failsAlongB w base_symbol tf limit now
        (failStep w base_symbol tf limit now st ex) rest

/-- The last error observed along a run of failing candidates. -/
def lastErrAlong (w : World) (base_symbol tf : String) (limit : Nat) (now : ℚ) :
    BotState → Option FetchErr → List String → Option FetchErr
  | _, acc, [] => acc
  | st, acc, ex :: rest =>
    match (attempt w st ex base_symbol tf limit).2 with
    | .error e =>
      lastErrAlong w base_symbol tf limit now
        (failStep w base_symbol tf limit now st ex) (some e) rest
    | .ok _ => acc

/-- `candidateOrder` as the spec states it: the pinned source first when it
names a known source, then the remaining sources in fixed priority order,
then the cooldown filter. -/
def candidateOrderSpec (st : BotState) (symbol tf : String) (now : ℚ) :
    List String :=
  let base :=
    match st.pinned (symbol, tf) with
    | some p =>
      if p ∈ EXCHANGES then p :: EXCHANGES.filter (fun ex => ex ≠ p)
      else EXCHANGES
    | none => EXCHANGES
  base.filter fun ex => decide (now ≥ st.cooldown ex)

/-!
Preservation lemmas: attempts and failure updates never touch the pin map or
the sent list, and failure updates never touch the pin map.
-/

theorem attempt_pinned (w : World) (st : BotState) (ex_name base_symbol tf : String)
    (limit : Nat) :
    (attempt w st ex_name base_symbol tf limit).1.pinned = st.pinned := by
  unfold attempt
  rcases h : find_perp_market_symbol st.perp_symbol_cache (w.exchanges ex_name) base_symbol
    with ⟨r, cache2, n⟩
  cases r with
  | ok ms =>
    cases hf : w.fetch_ohlcv ex_name ms tf limit <;> simp [h, hf]
  | error e => simp [h]

theorem attempt_sent (w : World) (st : BotState) (ex_name base_symbol tf : String)
    (limit : Nat) :
    (attempt w st ex_name base_symbol tf limit).1.sent = st.sent := by
  unfold attempt
  rcases h : find_perp_market_symbol st.perp_symbol_cache (w.exchanges ex_name) base_symbol
    with ⟨r, cache2, n⟩
  cases r with
  | ok ms =>
    cases hf : w.fetch_ohlcv ex_name ms tf limit <;> simp [h, hf]
  | error e => simp [h]

theorem failUpdate_pinned (w : World) (now : ℚ) (base_symbol ex_name : String)
    (e : FetchErr) (st : BotState) :
    (failUpdate w now base_symbol ex_name e st).pinned = st.pinned := by
  simp only [failUpdate, markCooldown]
  split_ifs <;> rfl

theorem failUpdate_sent (w : World) (now : ℚ) (base_symbol ex_name : String)
    (e : FetchErr) (st : BotState) :
    (failUpdate w now base_symbol ex_name e st).sent = st.sent := by
  simp only [failUpdate, markCooldown]
  split_ifs <;> rfl

theorem failStep_pinned (w : World) (base_symbol tf : String) (limit : Nat)
    (now : ℚ) (st : BotState) (ex_name : String) :
    (failStep w base_symbol tf limit now st ex_name).pinned = st.pinned := by
  unfold failStep
  rcases h : attempt w st ex_name base_symbol tf limit with ⟨st1, r⟩
  have hp : st1.pinned = st.pinned := by
    have := attempt_pinned w st ex_name base_symbol tf limit
    rw [h] at this; exact this
  cases r with
  | ok v => simpa using hp
  | error e => simp [failUpdate_pinned, hp]

theorem failStep_sent (w : World) (base_symbol tf : String) (limit : Nat)
    (now : ℚ) (st : BotState) (ex_name : String) :
    (failStep w base_symbol tf limit now st ex_name).sent = st.sent := by
  unfold failStep
  rcases h : attempt w st ex_name base_symbol tf limit with ⟨st1, r⟩
  have hp : st1.sent = st.sent := by
    have := attempt_sent w st ex_name base_symbol tf limit
    rw [h] at this; exact this
  cases r with
  | ok v => simpa using hp
  | error e => simp [failUpdate_sent, hp]

theorem failFold_pinned (w : World) (base_symbol tf : String) (limit : Nat)
    (now : ℚ) (l : List String) :
    ∀ st : BotState,
      (failFold w base_symbol tf limit now st l).pinned = st.pinned := by
  induction l with
  | nil => intro st; rfl
  | cons ex rest ih =>
    intro st
    simp only [failFold, List.foldl_cons] at ih ⊢
    rw [ih, failStep_pinned]

theorem failFold_sent (w : World) (base_symbol tf : String) (limit : Nat)
    (now : ℚ) (l : List String) :
    ∀ st : BotState,
      (failFold w base_symbol tf limit now st l).sent = st.sent := by
  induction l with
  | nil => intro st; rfl
  | cons ex rest ih =>
    intro st
    simp only [failFold, List.foldl_cons] at ih ⊢
    rw [ih, failStep_sent]

/-!
Membership lemmas for `appendMissing`, used for the cooldown claim.
-/

theorem mem_appendMissing_of_mem_order (l : List String) :
    ∀ (order : List String) (x : String), x ∈ order → x ∈ appendMissing order l := by
  induction l with
  | nil => intro order x hx; exact hx
  | cons ex rest ih =>
    intro order x hx
    apply ih
    by_cases hm : ex ∈ order
    · simpa [hm] using hx
    · simp only [hm, if_false]
      exact List.mem_append_left _ hx

theorem mem_appendMissing_of_mem (l : List String) :
    ∀ (order : List String) (x : String), x ∈ l → x ∈ appendMissing order l := by
  induction l with
  | nil => intro order x hx; cases hx
  | cons ex rest ih =>
    intro order x hx
    rcases List.mem_cons.mp hx with rfl | hx
    · have hmem : x ∈ (if x ∈ order then order else order ++ [x]) := by
        by_cases hm : x ∈ order
        · rw [if_pos hm]; exact hm
        · rw [if_neg hm]
          exact List.mem_append_right _ (List.mem_singleton_self x)
      exact mem_appendMissing_of_mem_order rest _ x hmem
    · exact ih _ x hx

/-- Claim C5: `exchange_order_for` returns exactly the pinned source first
(when the pin names a known source; an unknown pin is ignored), then the
remaining sources in fixed priority order, with no duplicates, with every
source whose cooldown-expiry exceeds `now` removed. -/
theorem candidate_order_correct (st : BotState) (symbol tf : String) (now : ℚ) :
    exchange_order_for st symbol tf now = candidateOrderSpec st symbol tf now ∧
      (exchange_order_for st symbol tf now).Nodup := by
  have base_eq : ∀ pin : Option String,
      appendMissing
        (match pin with
         | some p => if p ∈ EXCHANGES then [p] else []
         | none => []) EXCHANGES =
      (match pin with
       | some p =>
         if p ∈ EXCHANGES then p :: EXCHANGES.filter (fun ex => ex ≠ p)
         else EXCHANGES
       | none => EXCHANGES) := by
    intro pin
    rcases pin with _ | p
    · decide
    · by_cases hp : p ∈ EXCHANGES
      · have : p = "bybit" ∨ p = "kucoin" ∨ p = "okx" := by
          simpa [EXCHANGES] using hp
        rcases this with rfl | rfl | rfl <;> simp only [hp, if_true] <;> decide
      · simp only [hp, if_false]
        decide
  have nodup_base : ∀ pin : Option String,
      (match pin with
       | some p =>
         if p ∈ EXCHANGES then p :: EXCHANGES.filter (fun ex => ex ≠ p)
         else EXCHANGES
       | none => EXCHANGES).Nodup := by
    intro pin
    rcases pin with _ | p
    · decide
    · by_cases hp : p ∈ EXCHANGES
      · have : p = "bybit" ∨ p = "kucoin" ∨ p = "okx" := by
          simpa [EXCHANGES] using hp
        rcases this with rfl | rfl | rfl <;> simp only [hp, if_true] <;> decide
      · simp only [hp, if_false]; decide
  constructor
  · simp only [exchange_order_for, candidateOrderSpec]
    rw [base_eq]
  · simp only [exchange_order_for]
    rw [base_eq]
    exact (nodup_base _).filter _

/-- Claim C6: after `markCooldown source now=T duration=d` (cooldown-expiry
`T + d`), the source is absent from every candidate order computed with
`now < T + d`, and present again at every `now ≥ T + d` (it being a known
source, and its own cooldown the only possible exclusion). -/
theorem cooldown_window (st : BotState) (source : String) (T d : ℚ)
    (symbol tf : String) (now : ℚ) (hsrc : source ∈ EXCHANGES) :
    (now < T + d →
      source ∉ exchange_order_for (markCooldown st source T d) symbol tf now) ∧
    (T + d ≤ now →
      source ∈ exchange_order_for (markCooldown st source T d) symbol tf now) := by
  have hcool : (markCooldown st source T d).cooldown source = T + d := by
    simp [markCooldown]
  constructor
  · intro hlt hmem
    have := (List.mem_filter.mp hmem).2
    rw [hcool] at this
    exact absurd (of_decide_eq_true this) (not_le.mpr hlt)
  · intro hge
    apply List.mem_filter.mpr
    refine ⟨mem_appendMissing_of_mem _ _ _ hsrc, ?_⟩
    rw [hcool]
    exact decide_eq_true hge

/-- Witness for C6 at `source = "bybit"`, `T = 0`, `d = 120`: excluded at
`now = 50`, included at `now = 120`. -/
theorem cooldown_window_witness :
    ("bybit" ∉ exchange_order_for (markCooldown initState "bybit" 0 120)
        "BTC/USDT" "5m" 50) ∧
    ("bybit" ∈ exchange_order_for (markCooldown initState "bybit" 0 120)
        "BTC/USDT" "5m" 120) :=
  ⟨(cooldown_window initState "bybit" 0 120 "BTC/USDT" "5m" 50 (by decide)).1
      (by norm_num),
   (cooldown_window initState "bybit" 0 120 "BTC/USDT" "5m" 120 (by decide)).2
      (by norm_num)⟩

/-- Claim C7: on a key with no stored value, the cross-detection step records
the current value as baseline and emits nothing; on a key with a stored
value, it emits the downward cross exactly when `prev > low ∧ curr ≤ low`,
the upward cross exactly when `prev < high ∧ curr ≥ high`, and always stores
`curr`. -/
theorem crossStep_behavior (low high : ℚ) (ls : String → Option ℚ)
    (key : String) (prev curr : ℚ) :
    (ls key = none →
      crossStep low high ls key prev curr =
        (Function.update ls key (some curr), [])) ∧
    (∀ v, ls key = some v →
      (crossStep low high ls key prev curr).1 =
          Function.update ls key (some curr) ∧
        (CrossEvent.crossedBelow ∈ (crossStep low high ls key prev curr).2 ↔
          (prev > low ∧ curr ≤ low)) ∧
        (CrossEvent.crossedAbove ∈ (crossStep low high ls key prev curr).2 ↔
          (prev < high ∧ curr ≥ high))) := by
  constructor
  · intro h
    simp [crossStep, h]
  · intro v h
    refine ⟨by simp [crossStep, h], ?_, ?_⟩ <;>
      simp only [crossStep, h] <;> split_ifs with h1 h2 <;>
        simp_all [List.mem_append]

/-- Witness for C7: a fresh key records the baseline and emits nothing, and a
seen key with `(prev, curr) = (69, 71)` against `high = 70` emits exactly the
upward cross. -/
theorem crossStep_behavior_witness :
    (crossStep 30 70 (fun _ => none) "k" 50 60 =
      (Function.update (fun _ => none) "k" (some 60), [])) ∧
    (CrossEvent.crossedAbove ∈ (crossStep 30 70 (fun _ => some 55) "k" 69 71).2) :=
  ⟨(crossStep_behavior 30 70 (fun _ => none) "k" 50 60).1 rfl,
   (((crossStep_behavior 30 70 (fun _ => some 55) "k" 69 71).2 55 rfl).2.2).mpr
     (by norm_num)⟩

/-- Claim C10: once a key has a stored value, the events emitted by a
cross-detection step depend only on the fresh `(prev, curr)` pair and the
thresholds, never on the stored value itself. -/
theorem crossStep_stored_irrelevant (low high : ℚ)
    (ls1 ls2 : String → Option ℚ) (key : String) (prev curr : ℚ)
    (h1 : ls1 key ≠ none) (h2 : ls2 key ≠ none) :
    (crossStep low high ls1 key prev curr).2 =
      (crossStep low high ls2 key prev curr).2 := by
  rcases hv1 : ls1 key with _ | v1
  · exact absurd hv1 h1
  rcases hv2 : ls2 key with _ | v2
  · exact absurd hv2 h2
  simp [crossStep, hv1, hv2]

/-- Witness for C10: stored values 10 and 99 produce the same events for the
same fresh pair. -/
theorem crossStep_stored_irrelevant_witness :
    (crossStep 30 70 (fun _ => some 10) "k" 69 71).2 =
      (crossStep 30 70 (fun _ => some 99) "k" 69 71).2 :=
  crossStep_stored_irrelevant 30 70 (fun _ => some 10) (fun _ => some 99)
    "k" 69 71 (by simp) (by simp)

/-!
Length and masking lemmas for the RSI series.
-/

theorem upsGo_length (prev : ℚ) (l : List ℚ) : (upsGo prev l).length = l.length := by
  induction l generalizing prev with
  | nil => rfl
  | cons x xs ih => simp [upsGo, ih]

theorem upsFrom_length (l : List ℚ) : (upsFrom l).length = l.length := by
  cases l with
  | nil => rfl
  | cons c0 rest => simp [upsFrom, upsGo_length]

theorem downsGo_length (prev : ℚ) (l : List ℚ) :
    (downsGo prev l).length = l.length := by
  induction l generalizing prev with
  | nil => rfl
  | cons x xs ih => simp [downsGo, ih]

theorem downsFrom_length (l : List ℚ) : (downsFrom l).length = l.length := by
  cases l with
  | nil => rfl
  | cons c0 rest => simp [downsFrom, downsGo_length]

theorem ewmGo_length (alpha y : ℚ) (l : List ℚ) :
    (ewmGo alpha y l).length = l.length := by
  induction l generalizing y with
  | nil => rfl
  | cons x xs ih => simp [ewmGo, ih]

theorem ewmVals_length (alpha : ℚ) (l : List ℚ) :
    (ewmVals alpha l).length = l.length := by
  cases l with
  | nil => rfl
  | cons x xs => simp [ewmVals, ewmGo_length]

theorem maskShort_length (i : Nat) (l : List ℚ) :
    (maskShort i l).length = l.length := by
  induction l generalizing i with
  | nil => rfl
  | cons x xs ih => simp [maskShort, ih]

theorem rsiSeries_length (closes : List ℚ) :
    (rsiSeries closes).length = closes.length := by
  simp [rsiSeries, maskShort_length, List.length_zipWith, ewmVals_length,
    upsFrom_length, downsFrom_length]

theorem maskShort_get?_none (xs : List ℚ) :
    ∀ i j : Nat, j < xs.length → i + j + 1 < WINDOW →
      (maskShort i xs).get? j = some none := by
  induction xs with
  | nil => intro i j hj _; cases hj
  | cons x rest ih =>
    intro i j hj hw
    cases j with
    | zero =>
      simp only [maskShort, List.get?]
      rw [if_pos]
      omega
    | succ j =>
      simp only [maskShort, List.get?]
      exact ih (i + 1) j (by simpa using hj) (by omega)

/-- Claim C2 (amended): with at least 2 and fewer than 15 candles, `get_rsi`
does not fail at all — the RSI series is NaN at the second-to-last position
and the call returns those (possibly NaN) values; no `InsufficientData`
error exists in the code. -/
theorem get_rsi_short_input (candles : List Candle)
    (h2 : 2 ≤ candles.length) (h15 : candles.length < 15) :
    ∃ y, get_rsi_eval candles = .ok (none, y) := by
  refine ⟨((rsiSeries (candles.map fun cd => cd.c)).get?
    ((rsiSeries (candles.map fun cd => cd.c)).length - 1)).getD none, ?_⟩
  have hlen : (rsiSeries (candles.map fun cd => cd.c)).length = candles.length := by
    rw [rsiSeries_length, List.length_map]
  simp only [get_rsi_eval]
  rw [if_neg (by omega)]
  have hbase : ((List.zipWith rsiPoint
      (ewmVals (1 / (WINDOW : ℚ)) (upsFrom (candles.map fun cd => cd.c)))
      (ewmVals (1 / (WINDOW : ℚ)) (downsFrom (candles.map fun cd => cd.c))))).length
      = candles.length := by
    simp [List.length_zipWith, ewmVals_length, upsFrom_length, downsFrom_length]
  have hget : (rsiSeries (candles.map fun cd => cd.c)).get?
      ((rsiSeries (candles.map fun cd => cd.c)).length - 2) = some none := by
    rw [hlen]
    unfold rsiSeries
    apply maskShort_get?_none
    · omega
    · unfold WINDOW
      omega
  rw [hget]
  rfl

/-- Counterexample to C2 as stated: a fetch of 10 candles (fewer than 16)
does not make `get_rsi` fail — it returns `.ok` with NaN indicator values
instead of an `InsufficientData` error. -/
theorem get_rsi_short_input_counterexample :
    ([⟨1, 0, 0, 0, 10, 0⟩, ⟨2, 0, 0, 0, 11, 0⟩, ⟨3, 0, 0, 0, 9, 0⟩,
      ⟨4, 0, 0, 0, 12, 0⟩, ⟨5, 0, 0, 0, 13, 0⟩, ⟨6, 0, 0, 0, 8, 0⟩,
      ⟨7, 0, 0, 0, 14, 0⟩, ⟨8, 0, 0, 0, 15, 0⟩, ⟨9, 0, 0, 0, 16, 0⟩,
      ⟨10, 0, 0, 0, 17, 0⟩] : List Candle).length < 16 ∧
    get_rsi_eval
      [⟨1, 0, 0, 0, 10, 0⟩, ⟨2, 0, 0, 0, 11, 0⟩, ⟨3, 0, 0, 0, 9, 0⟩,
       ⟨4, 0, 0, 0, 12, 0⟩, ⟨5, 0, 0, 0, 13, 0⟩, ⟨6, 0, 0, 0, 8, 0⟩,
       ⟨7, 0, 0, 0, 14, 0⟩, ⟨8, 0, 0, 0, 15, 0⟩, ⟨9, 0, 0, 0, 16, 0⟩,
       ⟨10, 0, 0, 0, 17, 0⟩] = .ok (none, none) := by
  constructor
  · decide
  · rfl

/-- Witness for the amended C2 at the same 10-candle input. -/
theorem get_rsi_short_input_witness :
    ∃ y, get_rsi_eval
      [⟨1, 0, 0, 0, 10, 0⟩, ⟨2, 0, 0, 0, 11, 0⟩, ⟨3, 0, 0, 0, 9, 0⟩,
       ⟨4, 0, 0, 0, 12, 0⟩, ⟨5, 0, 0, 0, 13, 0⟩, ⟨6, 0, 0, 0, 8, 0⟩,
       ⟨7, 0, 0, 0, 14, 0⟩, ⟨8, 0, 0, 0, 15, 0⟩, ⟨9, 0, 0, 0, 16, 0⟩,
       ⟨10, 0, 0, 0, 17, 0⟩] = .ok (none, y) :=
  get_rsi_short_input _ (by decide) (by decide)

/-- `find?` returns the head of the filtered list. -/
theorem find?_eq_filter_head? {α : Type} (p : α → Bool) (l : List α) :
    l.find? p = (l.filter p).head? := by
  induction l with
  | nil => rfl
  | cons x xs ih =>
    cases hb : p x
    · rw [List.find?_cons, List.filter_cons, hb]
      exact ih
    · rw [List.find?_cons, List.filter_cons, hb]
      rfl

/-- Claim C8: on a cache miss, the resolver selects among active catalog
markets matching the split base/quote that are swap instruments; it prefers
the first linear-flagged candidate, otherwise the first candidate in
provider-returned order; with no candidate it falls back to the raw
`base_symbol` when that string is a tradable market, and otherwise fails
with `BadSymbol` (MarketNotFound). -/
theorem resolver_selection (cache : PerpCache) (ex : CcxtExchange)
    (base_symbol b q : String)
    (hmiss : cache (ex.id, base_symbol) = none)
    (hsplit : pySplit base_symbol '/' = [b, q]) :
    (∀ m, (ex.markets.filter (isPerpCandidate b q)).find?
        (fun m2 => m2.linear == some true) = some m →
      (find_perp_market_symbol cache ex base_symbol).1 = .ok m.symbol) ∧
    ((ex.markets.filter (isPerpCandidate b q)).find?
        (fun m2 => m2.linear == some true) = none →
      ∀ c cs, ex.markets.filter (isPerpCandidate b q) = c :: cs →
        (find_perp_market_symbol cache ex base_symbol).1 = .ok c.symbol) ∧
    (ex.markets.filter (isPerpCandidate b q) = [] → base_symbol ∈ ex.symbols →
      (find_perp_market_symbol cache ex base_symbol).1 = .ok base_symbol) ∧
    (ex.markets.filter (isPerpCandidate b q) = [] → base_symbol ∉ ex.symbols →
      (find_perp_market_symbol cache ex base_symbol).1 =
        .error (.badSymbol
          ("Perp " ++ base_symbol ++ " não encontrado em " ++ ex.id))) := by
  refine ⟨?_, ?_, ?_, ?_⟩
  · intro m hfind
    rcases hcand : ex.markets.filter (isPerpCandidate b q) with _ | ⟨c, cs⟩
    · rw [hcand] at hfind; simp at hfind
    · rw [hcand, find?_eq_filter_head?] at hfind
      rcases hl : (c :: cs).filter (fun m2 => m2.linear == some true)
        with _ | ⟨l, ls⟩
      · rw [hl] at hfind; simp at hfind
      · rw [hl] at hfind
        simp only [List.head?] at hfind
        injection hfind with hlm
        simp only [find_perp_market_symbol, hmiss, hsplit, hcand, hl, hlm]
  · intro hfind c cs hcand
    rw [hcand, find?_eq_filter_head?] at hfind
    rcases hl : (c :: cs).filter (fun m2 => m2.linear == some true)
      with _ | ⟨l, ls⟩
    · simp only [find_perp_market_symbol, hmiss, hsplit, hcand, hl]
    · rw [hl] at hfind; simp at hfind
  · intro hcand hsym
    simp only [find_perp_market_symbol, hmiss, hsplit, hcand, hsym, if_true]
  · intro hcand hsym
    simp only [find_perp_market_symbol, hmiss, hsplit, hcand, hsym, if_false]

/-- Witness for C8: a catalog with a non-linear and a linear matching swap
market resolves to the linear one. -/
theorem resolver_selection_witness :
    (find_perp_market_symbol (fun _ => none)
      ⟨"bybit",
       [⟨some true, some "BTC", some "USDT", some true, none, some false,
          "BTC/USDT:USDT-I"⟩,
        ⟨some true, some "BTC", some "USDT", some true, none, some true,
          "BTC/USDT:USDT"⟩], []⟩
      "BTC/USDT").1 = .ok "BTC/USDT:USDT" :=
  (resolver_selection (fun _ => none) _ "BTC/USDT" "BTC" "USDT" rfl
    (by decide)).1
    ⟨some true, some "BTC", some "USDT", some true, none, some true,
      "BTC/USDT:USDT"⟩ (by decide)

/-- On success, the resolver leaves the cache holding the returned symbol
under `(ex.id, base_symbol)`. -/
theorem resolver_caches_success (cache : PerpCache) (ex : CcxtExchange)
    (base_symbol s : String)
    (h : (find_perp_market_symbol cache ex base_symbol).1 = .ok s) :
    (find_perp_market_symbol cache ex base_symbol).2.1 (ex.id, base_symbol) =
      some s ∧ (find_perp_market_symbol cache ex base_symbol).2.2 ≤ 1 := by
  rcases hc : cache (ex.id, base_symbol) with _ | s0
  · rcases hsp : pySplit base_symbol '/' with _ | ⟨b, _ | ⟨q, _ | ⟨r, rest⟩⟩⟩
    · simp only [find_perp_market_symbol, hc, hsp] at h ⊢
      rw [if_pos (by simp)] at h
      cases h
    · simp only [find_perp_market_symbol, hc, hsp] at h ⊢
      rw [if_pos (by simp)] at h
      cases h
    · rcases hcand : ex.markets.filter (isPerpCandidate b q) with _ | ⟨c, cs⟩
      · by_cases hsym : base_symbol ∈ ex.symbols
        · simp only [find_perp_market_symbol, hc, hsp, hcand, hsym, if_true] at h ⊢
          injection h with h2
          subst h2
          exact ⟨Function.update_same _ _ _, by omega⟩
        · simp only [find_perp_market_symbol, hc, hsp, hcand, hsym, if_false] at h
          cases h
      · simp only [find_perp_market_symbol, hc, hsp, hcand] at h ⊢
        injection h with h2
        subst h2
        exact ⟨Function.update_same _ _ _, by omega⟩
    · simp only [find_perp_market_symbol, hc, hsp] at h ⊢
      rw [if_neg (by simp)] at h
      cases h
  · simp only [find_perp_market_symbol, hc] at h ⊢
    injection h with h2
    subst h2
    exact ⟨rfl, by omega⟩

/-- Claim C9: a successful resolution performs at most one catalog load, and
an immediately repeated call is a pure cache hit — same symbol, unchanged
cache, zero further loads. -/
theorem resolver_idempotent (cache : PerpCache) (ex : CcxtExchange)
    (base_symbol s : String)
    (h : (find_perp_market_symbol cache ex base_symbol).1 = .ok s) :
    (find_perp_market_symbol cache ex base_symbol).2.2 ≤ 1 ∧
    find_perp_market_symbol (find_perp_market_symbol cache ex base_symbol).2.1
        ex base_symbol =
      (.ok s, (find_perp_market_symbol cache ex base_symbol).2.1, 0) := by
  obtain ⟨hkey, hload⟩ := resolver_caches_success cache ex base_symbol s h
  refine ⟨hload, ?_⟩
  generalize hC : (find_perp_market_symbol cache ex base_symbol).2.1 = cache2 at hkey ⊢
  simp only [find_perp_market_symbol, hkey]

/-- Witness for C9 via the raw-symbol fallback path: an empty swap catalog
with the raw symbol tradable resolves to the raw symbol, and the second call
is a cache hit with zero loads. -/
theorem resolver_idempotent_witness :
    (find_perp_market_symbol (fun _ => none)
      ⟨"okx", [], ["BTC/USDT"]⟩ "BTC/USDT").2.2 ≤ 1 ∧
    find_perp_market_symbol
        (find_perp_market_symbol (fun _ => none)
          ⟨"okx", [], ["BTC/USDT"]⟩ "BTC/USDT").2.1
        ⟨"okx", [], ["BTC/USDT"]⟩ "BTC/USDT" =
      (.ok "BTC/USDT",
       (find_perp_market_symbol (fun _ => none)
         ⟨"okx", [], ["BTC/USDT"]⟩ "BTC/USDT").2.1, 0) :=
  resolver_idempotent (fun _ => none) ⟨"okx", [], ["BTC/USDT"]⟩
    "BTC/USDT" "BTC/USDT" (by decide)

/-!
Unfolding lemmas for the candidate loop.
-/

theorem fetchGo_cons_fail (w : World) (b tf : String) (limit : Nat) (now : ℚ)
    (st st1 : BotState) (tried : List String) (lastErr : Option FetchErr)
    (ex : String) (rest : List String) (e : FetchErr)
    (h : attempt w st ex b tf limit = (st1, .error e)) :
    fetchGo w b tf limit now st tried (ex :: rest) lastErr =
      fetchGo w b tf limit now (failUpdate w now b ex e st1)
        (tried ++ [ex]) rest (some e) := by
  simp only [fetchGo, h]

theorem fetchGo_cons_ok (w : World) (b tf : String) (limit : Nat) (now : ℚ)
    (st st1 : BotState) (tried : List String) (lastErr : Option FetchErr)
    (ex : String) (rest : List String) (ms : String) (cs : List Candle)
    (h : attempt w st ex b tf limit = (st1, .ok (ms, cs))) :
    fetchGo w b tf limit now st tried (ex :: rest) lastErr =
      ((match st1.pinned (b, tf) with
        | some p =>
          if p ≠ "" ∧ p ≠ ex then
            { st1 with
              pinned := Function.update st1.pinned (b, tf) (some ex),
              sent := st1.sent ++ [(b, tf, p, ex)] }
          else { st1 with pinned := Function.update st1.pinned (b, tf) (some ex) }
        | none => { st1 with pinned := Function.update st1.pinned (b, tf) (some ex) }),
       tried ++ [ex], .ok ⟨ex, ms, cs⟩) := by
  simp only [fetchGo, h]

theorem failStep_eq_of_error (w : World) (b tf : String) (limit : Nat)
    (now : ℚ) (st st1 : BotState) (ex : String) (e : FetchErr)
    (h : attempt w st ex b tf limit = (st1, .error e)) :
    failStep w b tf limit now st ex = failUpdate w now b ex e st1 := by
  simp only [failStep, h]

theorem fetchGo_over_fails (w : World) (b tf : String) (limit : Nat)
    (now : ℚ) (l : List String) :
    ∀ (st : BotState) (tried l2 : List String) (lastErr : Option FetchErr),
      failsAlongB w b tf limit now st l = true →
      fetchGo w b tf limit now st tried (l ++ l2) lastErr =
        fetchGo w b tf limit now (failFold w b tf limit now st l)
          (tried ++ l) l2 (lastErrAlong w b tf limit now st lastErr l) := by
  induction l with
  | nil =>
    intro st tried l2 lastErr _
    simp [failFold, lastErrAlong]
  | cons ex rest ih =>
    intro st tried l2 lastErr hfail
    simp only [failsAlongB, Bool.and_eq_true] at hfail
    obtain ⟨h1, h2⟩ := hfail
    rcases hatt : attempt w st ex b tf limit with ⟨st1, r⟩
    cases r with
    | ok v =>
      rw [hatt] at h1
      simp [exceptIsOk] at h1
    | error e =>
      rw [List.cons_append,
        fetchGo_cons_fail w b tf limit now st st1 tried lastErr ex
          (rest ++ l2) e hatt]
      have hstep : failStep w b tf limit now st ex =
          failUpdate w now b ex e st1 :=
        failStep_eq_of_error w b tf limit now st st1 ex e hatt
      rw [← hstep]
      rw [ih (failStep w b tf limit now st ex) (tried ++ [ex]) l2 (some e) h2]
      have hfold : failFold w b tf limit now st (ex :: rest) =
          failFold w b tf limit now (failStep w b tf limit now st ex) rest := by
        simp [failFold]
      have herr : lastErrAlong w b tf limit now st lastErr (ex :: rest) =
          lastErrAlong w b tf limit now (failStep w b tf limit now st ex)
            (some e) rest := by
        simp only [lastErrAlong, hatt]
      rw [hfold, herr]
      simp

/-- Claim C4: when every candidate fails (including the empty candidate
list), `fetch_ohlcv_pinned` raises the exhaustion error carrying exactly the
attempted sources in attempt order and the last observed error, and no pin
is modified. -/
theorem fetch_exhaustion (w : World) (st : BotState) (b tf : String)
    (limit : Nat) (now : ℚ)
    (hall : failsAlongB w b tf limit now st
      (exchange_order_for st b tf now) = true) :
    fetch_ohlcv_pinned w st b tf limit now =
      (failFold w b tf limit now st (exchange_order_for st b tf now),
       exchange_order_for st b tf now,
       .error ⟨exchange_order_for st b tf now,
               lastErrAlong w b tf limit now st none
                 (exchange_order_for st b tf now)⟩) ∧
    (fetch_ohlcv_pinned w st b tf limit now).1.pinned = st.pinned := by
  have h := fetchGo_over_fails w b tf limit now
    (exchange_order_for st b tf now) st [] [] none hall
  rw [List.append_nil] at h
  unfold fetch_ohlcv_pinned
  rw [h]
  refine ⟨by simp [fetchGo], ?_⟩
  simp only [fetchGo]
  exact failFold_pinned w b tf limit now _ st

/-- Claim C1: when the candidates split as `pre ++ win :: rest` with every
source in `pre` failing and `win` succeeding, the fetcher returns `win` with
its resolved market and candles, attempts exactly `pre ++ [win]` (nothing
after the success), pins `(base, tf)` to `win`, and sends a failover
notification exactly when a pin previously existed and named a different
source. -/
theorem fetch_first_success (w : World) (st : BotState) (b tf : String)
    (limit : Nat) (now : ℚ) (pre : List String) (win : String)
    (rest : List String) (ms : String) (cs : List Candle) (stw : BotState)
    (horder : exchange_order_for st b tf now = pre ++ win :: rest)
    (hpre : failsAlongB w b tf limit now st pre = true)
    (hwin : attempt w (failFold w b tf limit now st pre) win b tf limit =
      (stw, .ok (ms, cs)))
    (hpin : ∀ p, st.pinned (b, tf) = some p → p ∈ EXCHANGES) :
    (fetch_ohlcv_pinned w st b tf limit now).2.1 = pre ++ [win] ∧
    (fetch_ohlcv_pinned w st b tf limit now).2.2 = .ok ⟨win, ms, cs⟩ ∧
    (fetch_ohlcv_pinned w st b tf limit now).1.pinned (b, tf) = some win ∧
    (fetch_ohlcv_pinned w st b tf limit now).1.sent =
      st.sent ++
        (match st.pinned (b, tf) with
         | some p => if p ≠ win then [(b, tf, p, win)] else []
         | none => []) := by
  have hstw_pinned : stw.pinned = st.pinned := by
    have h1 := attempt_pinned w (failFold w b tf limit now st pre) win b tf limit
    rw [hwin] at h1
    rw [h1]
    exact failFold_pinned w b tf limit now pre st
  have hstw_sent : stw.sent = st.sent := by
    have h1 := attempt_sent w (failFold w b tf limit now st pre) win b tf limit
    rw [hwin] at h1
    rw [h1]
    exact failFold_sent w b tf limit now pre st
  have hmain : fetch_ohlcv_pinned w st b tf limit now =
      ((match stw.pinned (b, tf) with
        | some p =>
          if p ≠ "" ∧ p ≠ win then
            { stw with
              pinned := Function.update stw.pinned (b, tf) (some win),
              sent := stw.sent ++ [(b, tf, p, win)] }
          else { stw with pinned := Function.update stw.pinned (b, tf) (some win) }
        | none => { stw with pinned := Function.update stw.pinned (b, tf) (some win) }),
       ([] ++ pre) ++ [win], .ok ⟨win, ms, cs⟩) := by
    unfold fetch_ohlcv_pinned
    rw [horder,
      fetchGo_over_fails w b tf limit now pre st [] (win :: rest) none hpre,
      fetchGo_cons_ok w b tf limit now (failFold w b tf limit now st pre) stw
        ([] ++ pre) (lastErrAlong w b tf limit now st none pre) win rest ms cs
        hwin]
  rw [hmain]
  rcases hp : st.pinned (b, tf) with _ | p
  · rw [hstw_pinned] at *
    simp [hp, Function.update_same, hstw_sent]
  · have hpe : p ∈ EXCHANGES := hpin p hp
    have hne : p ≠ "" := by
      rcases (by simpa [EXCHANGES] using hpe : p = "bybit" ∨ p = "kucoin" ∨ p = "okx")
        with rfl | rfl | rfl <;> decide
    rw [hstw_pinned] at *
    by_cases hpw : p = win
    · subst hpw
      simp [hp, Function.update_same, hstw_sent]
    · simp [hp, Function.update_same, hstw_sent, hne, hpw]

/-- Claim C3 (amended): a failing attempt whose lowercased error text
mentions "symbol" or "market", and which is not a `BadSymbol`, evicts the
cached market-resolution entry for `(source, baseSymbol)` and advances to
the next candidate — but a cooldown is still placed whenever the error is
independently classified recoverable; the eviction does not suppress it. -/
theorem stale_market_text_step (w : World) (b tf : String) (limit : Nat)
    (now : ℚ) (st st1 : BotState) (tried : List String)
    (lastErr : Option FetchErr) (ex : String) (rest : List String)
    (e : FetchErr)
    (hatt : attempt w st ex b tf limit = (st1, .error e))
    (hbad : e.isBadSymbol = false)
    (hmkt : (strHasSub (strLower e.msg) "symbol" ||
      strHasSub (strLower e.msg) "market") = true) :
    fetchGo w b tf limit now st tried (ex :: rest) lastErr =
      fetchGo w b tf limit now (failUpdate w now b ex e st1)
        (tried ++ [ex]) rest (some e) ∧
    (failUpdate w now b ex e st1).perp_symbol_cache
      ((w.exchanges ex).id, b) = none ∧
    (failUpdate w now b ex e st1).cooldown ex =
      (if is_recoverable e then now + COOLDOWN_SECONDS else st1.cooldown ex) := by
  refine ⟨fetchGo_cons_fail w b tf limit now st st1 tried lastErr ex rest e hatt,
    ?_, ?_⟩
  · by_cases hrec : is_recoverable e
    · simp [failUpdate, hbad, hmkt, hrec, markCooldown, Function.update_same]
    · simp [failUpdate, hbad, hmkt, hrec, Function.update_same]
  · by_cases hrec : is_recoverable e
    · simp [failUpdate, hbad, hmkt, hrec, markCooldown, Function.update_same]
    · simp [failUpdate, hbad, hmkt, hrec]

/-- Witness for C1: bybit fails with a recoverable timeout, kucoin succeeds;
the fetcher returns kucoin, tried exactly bybit then kucoin, pinned kucoin,
and (no prior pin) sent no failover notification. -/
theorem fetch_first_success_witness :
    (fetch_ohlcv_pinned
      ⟨fun n => ⟨n, [], ["BTC/USDT"]⟩,
       fun n _ _ _ =>
         if n = "bybit" then .error ⟨false, true, "timeout"⟩
         else .ok [⟨1, 2, 3, 4, 5, 6⟩]⟩
      initState "BTC/USDT" "5m" 100 0).2.1 = ["bybit", "kucoin"] ∧
    (fetch_ohlcv_pinned
      ⟨fun n => ⟨n, [], ["BTC/USDT"]⟩,
       fun n _ _ _ =>
         if n = "bybit" then .error ⟨false, true, "timeout"⟩
         else .ok [⟨1, 2, 3, 4, 5, 6⟩]⟩
      initState "BTC/USDT" "5m" 100 0).2.2 =
        .ok ⟨"kucoin", "BTC/USDT", [⟨1, 2, 3, 4, 5, 6⟩]⟩ ∧
    (fetch_ohlcv_pinned
      ⟨fun n => ⟨n, [], ["BTC/USDT"]⟩,
       fun n _ _ _ =>
         if n = "bybit" then .error ⟨false, true, "timeout"⟩
         else .ok [⟨1, 2, 3, 4, 5, 6⟩]⟩
      initState "BTC/USDT" "5m" 100 0).1.pinned ("BTC/USDT", "5m") =
        some "kucoin" ∧
    (fetch_ohlcv_pinned
      ⟨fun n => ⟨n, [], ["BTC/USDT"]⟩,
       fun n _ _ _ =>
         if n = "bybit" then .error ⟨false, true, "timeout"⟩
         else .ok [⟨1, 2, 3, 4, 5, 6⟩]⟩
      initState "BTC/USDT" "5m" 100 0).1.sent = [] := by
  have h := fetch_first_success
    ⟨fun n => ⟨n, [], ["BTC/USDT"]⟩,
     fun n _ _ _ =>
       if n = "bybit" then .error ⟨false, true, "timeout"⟩
       else .ok [⟨1, 2, 3, 4, 5, 6⟩]⟩
    initState "BTC/USDT" "5m" 100 0 ["bybit"] "kucoin" ["okx"] "BTC/USDT"
    [⟨1, 2, 3, 4, 5, 6⟩] _ (by decide) (by decide) rfl
    (fun p hp => Option.noConfusion hp)
  exact ⟨h.1, h.2.1, h.2.2.1, by simpa using h.2.2.2⟩

/-- Witness for C4 at the empty candidate list: all sources in cooldown, the
fetch fails with an empty attempted list and no last error, and no pin
changes. -/
theorem fetch_exhaustion_witness :
    (fetch_ohlcv_pinned
      ⟨fun n => ⟨n, [], []⟩, fun _ _ _ _ => .error ⟨false, false, "x"⟩⟩
      { initState with cooldown := fun _ => 100 }
      "BTC/USDT" "5m" 100 0).2.2 = .error ⟨[], none⟩ ∧
    (fetch_ohlcv_pinned
      ⟨fun n => ⟨n, [], []⟩, fun _ _ _ _ => .error ⟨false, false, "x"⟩⟩
      { initState with cooldown := fun _ => 100 }
      "BTC/USDT" "5m" 100 0).1.pinned =
      ({ initState with cooldown := fun _ => 100 } : BotState).pinned := by
  have h := fetch_exhaustion
    ⟨fun n => ⟨n, [], []⟩, fun _ _ _ _ => .error ⟨false, false, "x"⟩⟩
    { initState with cooldown := fun _ => 100 } "BTC/USDT" "5m" 100 0
    (by decide)
  refine ⟨?_, h.2⟩
  rw [h.1]
  decide

/-- Counterexample to C3 as stated: an error whose text contains "market"
but which is also classified recoverable (here via "forbidden") gets a
cooldown placed on the source — the claim says no cooldown — even though the
cache entry is evicted and the fetcher advances. -/
theorem stale_market_no_cooldown_counterexample :
    strHasSub (strLower "market access forbidden") "market" = true ∧
    ({ initState with perp_symbol_cache := fun k =>
        if k = ("bybit", "BTC/USDT") then some "BTC/USDT:USDT" else none } :
      BotState).cooldown "bybit" = 0 ∧
    (fetchGo
      ⟨fun n => ⟨n, [], []⟩,
       fun _ _ _ _ => .error ⟨false, false, "market access forbidden"⟩⟩
      "BTC/USDT" "5m" 100 0
      { initState with perp_symbol_cache := fun k =>
          if k = ("bybit", "BTC/USDT") then some "BTC/USDT:USDT" else none }
      [] ["bybit"] none).1.cooldown "bybit" = 120 ∧
    (fetchGo
      ⟨fun n => ⟨n, [], []⟩,
       fun _ _ _ _ => .error ⟨false, false, "market access forbidden"⟩⟩
      "BTC/USDT" "5m" 100 0
      { initState with perp_symbol_cache := fun k =>
          if k = ("bybit", "BTC/USDT") then some "BTC/USDT:USDT" else none }
      [] ["bybit"] none).1.perp_symbol_cache ("bybit", "BTC/USDT") = none := by
  refine ⟨by decide, rfl, ?_, by decide⟩
  show (0 : ℚ) + COOLDOWN_SECONDS = 120
  norm_num [COOLDOWN_SECONDS]

/-- Witness for the amended C3 at the same concrete error: cache evicted and
cooldown set exactly per the recoverability test. -/
theorem stale_market_text_step_witness :
    (failUpdate
      ⟨fun n => ⟨n, [], []⟩,
       fun _ _ _ _ => .error ⟨false, false, "market access forbidden"⟩⟩
      0 "BTC/USDT" "bybit" ⟨false, false, "market access forbidden"⟩
      (attempt
        ⟨fun n => ⟨n, [], []⟩,
         fun _ _ _ _ => .error ⟨false, false, "market access forbidden"⟩⟩
        { initState with perp_symbol_cache := fun k =>
            if k = ("bybit", "BTC/USDT") then some "BTC/USDT:USDT" else none }
        "bybit" "BTC/USDT" "5m" 100).1).perp_symbol_cache
      ((CcxtExchange.mk "bybit" [] []).id, "BTC/USDT") = none ∧
    (failUpdate
      ⟨fun n => ⟨n, [], []⟩,
       fun _ _ _ _ => .error ⟨false, false, "market access forbidden"⟩⟩
      0 "BTC/USDT" "bybit" ⟨false, false, "market access forbidden"⟩
      (attempt
        ⟨fun n => ⟨n, [], []⟩,
         fun _ _ _ _ => .error ⟨false, false, "market access forbidden"⟩⟩
        { initState with perp_symbol_cache := fun k =>
            if k = ("bybit", "BTC/USDT") then some "BTC/USDT:USDT" else none }
        "bybit" "BTC/USDT" "5m" 100).1).cooldown "bybit" =
      (if is_recoverable ⟨false, false, "market access forbidden"⟩ then
        (0 : ℚ) + COOLDOWN_SECONDS
       else
        (attempt
          ⟨fun n => ⟨n, [], []⟩,
           fun _ _ _ _ => .error ⟨false, false, "market access forbidden"⟩⟩
          { initState with perp_symbol_cache := fun k =>
              if k = ("bybit", "BTC/USDT") then some "BTC/USDT:USDT" else none }
          "bybit" "BTC/USDT" "5m" 100).1.cooldown "bybit") := by
  have h := stale_market_text_step
    ⟨fun n => ⟨n, [], []⟩,
     fun _ _ _ _ => .error ⟨false, false, "market access forbidden"⟩⟩
    "BTC/USDT" "5m" 100 0
    { initState with perp_symbol_cache := fun k =>
        if k = ("bybit", "BTC/USDT") then some "BTC/USDT:USDT" else none }
    _ [] none "bybit" [] ⟨false, false, "market access forbidden"⟩
    rfl rfl (by decide)
  exact ⟨h.2.1, h.2.2⟩
